import Mathlib

/-!
Verification of the Kendall's tau (da-RR) routine in
`scripts/kendalls_tau.py`.

Scores are modelled as rationals (`ℚ`): the Python code only compares,
subtracts and takes absolute values of scores, and divides integer counts,
so the embedding is exact on every input whose scores are (decimal)
numerals.  Python lists/tuples of two ranks become `ℚ × ℚ`; the
`assert len(scores) == 2` and the unguarded integer division become
`Except String` results (`"AssertionError"`, `"ZeroDivisionError"`).
A pandas data frame, after `groupby`, is modelled as a list of groups,
each group the list of its rows in frame order; row indices inside a
group are pairwise distinct (pandas indices of a sub-frame of one frame),
so selecting the two rows of an index pair is pairing the rows themselves.
-/

namespace KendallsTau

/-- One row of the input table: the human direct-assessment score column
(default name `ranking`) and the metric score column (default `score`). -/
structure Record where
  ranking : ℚ
  score : ℚ
deriving DecidableEq, Repr

/-- Python's built-in `abs`, written executably (Mathlib's `|·|` on `ℚ`
does not reduce in the kernel; `rat_abs_eq_abs` below identifies the two). -/
def rat_abs (q : ℚ) : ℚ := if q < 0 then -q else q

/-- The tie/rank policy of `compute_human_ranks` on its two scores `a, b`:
ties (rank pair `(1,1)`) when the scores are equal or closer than
`threshold`, otherwise rank 1 to the larger score. -/
def human_ranks_pair (a b threshold : ℚ) : ℚ × ℚ :=
  if a = b ∨ rat_abs (a - b) < threshold then (1, 1)
  else if a > b then (1, 2)
  else (2, 1)

/-- `compute_human_ranks(scores, threshold)` from the source: asserts that
exactly two scores are given (modelled as `Except.error "AssertionError"`),
then applies the threshold policy. -/
def compute_human_ranks (scores : List ℚ) (threshold : ℚ) : Except String (ℚ × ℚ) :=
  match scores with
  | [a, b] => Except.ok (human_ranks_pair a b threshold)
  | _ => Except.error "AssertionError"

/-- `itertools.combinations(l, 2)`: all pairs `(l[i], l[j])` with `i < j`,
in lexicographic position order. -/
def combinations2 {α : Type} : List α → List (α × α)
  | [] => []
  | x :: xs => (xs.map fun y => (x, y)) ++ combinations2 xs

/-- `get_index_pairs(df)` from the source: `itertools.combinations` of the
index, keeping only pairs of distinct indices. -/
def get_index_pairs (index : List ℕ) : List (ℕ × ℕ) :=
  (combinations2 index).filter fun p => p.1 != p.2

/-- `operator.lt` on scores/ranks. -/
def op_lt (a b : ℚ) : Bool := decide (a < b)

/-- `operator.eq` on scores/ranks. -/
def op_eq (a b : ℚ) : Bool := decide (a = b)

/-- `operator.gt` on scores/ranks. -/
def op_gt (a b : ℚ) : Bool := decide (a > b)

/-- Variant B (soft penalization) comparison table from the source. -/
def comparison_variant_b : List ((ℚ → ℚ → Bool) × (ℚ → ℚ → Bool) × String) :=
  [(op_lt, op_lt, "c"),
   (op_lt, op_eq, "t"),
   (op_lt, op_gt, "d"),
   (op_gt, op_lt, "d"),
   (op_gt, op_eq, "t"),
   (op_gt, op_gt, "c")]

/-- The row loop of `compute_rank_pair_type`: first row whose two operators
both hold wins; falling through returns `"-"`. -/
def lookup_comparison :
    List ((ℚ → ℚ → Bool) × (ℚ → ℚ → Bool) × String) → ℚ × ℚ → ℚ × ℚ → String
  | [], _, _ => "-"
  | (h_op, m_op, outcome) :: rest, h, m =>
    if h_op h.1 h.2 && m_op m.1 m.2 then outcome else lookup_comparison rest h m

/-- `compute_rank_pair_type(human_ranking, metric_ranking)` from the source,
with `comparison_table = comparison_variant_b`. -/
def compute_rank_pair_type (human_ranking metric_ranking : ℚ × ℚ) : String :=
  lookup_comparison comparison_variant_b human_ranking metric_ranking

/-- pandas `Series.rank(method="min")` on a series of two values: equal
values share rank 1; otherwise the smaller value gets rank 1, the larger
rank 2. -/
def rank_min (s : ℚ × ℚ) : ℚ × ℚ :=
  if s.1 = s.2 then (1, 1)
  else if s.1 < s.2 then (1, 2)
  else (2, 1)

/-- The body of the pair loop of `kendalls_tau_darr` for one pair of rows
`r1, r2` (in frame order): human ranks from the human column, metric ranks
by min-ranking the metric column, then the variant-B classification.
`compute_human_ranks` always receives exactly two scores here, so its
assertion passes. -/
def classify_pair (threshold : ℚ) (r1 r2 : Record) : String :=
  match compute_human_ranks [r1.ranking, r2.ranking] threshold with
  | Except.ok human_ranks =>
      compute_rank_pair_type human_ranks (rank_min (r1.score, r2.score))
  | Except.error e => e

/-- The pair types collected for one group: one classification per
unordered pair of distinct rows, pairs in `itertools.combinations` order. -/
def pair_types_of_group (threshold : ℚ) (g : List Record) : List String :=
  (combinations2 g).map fun p => classify_pair threshold p.1 p.2

/-- All pair types accumulated over all groups (`counts.update` over the
group loop). -/
def all_pair_types (threshold : ℚ) (groups : List (List Record)) : List String :=
  groups.flatMap (pair_types_of_group threshold)

/-- The mapping returned by `kendalls_tau_darr`. -/
structure TauResult where
  tau : ℚ
  concordant : ℕ
  discordant : ℕ
  ties : ℕ
deriving DecidableEq, Repr

/-- `kendalls_tau_darr(df, ...)` from the source: group, pair, classify,
count, then the unguarded division `(c - d) / (c + d + t)` — a zero
denominator raises `ZeroDivisionError` in Python, modelled as
`Except.error "ZeroDivisionError"`. -/
def kendalls_tau_darr (threshold : ℚ) (groups : List (List Record)) :
    Except String TauResult :=
  let pair_types := all_pair_types threshold groups
  let concordant_pairs := pair_types.count "c"
  let discordant_pairs := pair_types.count "d"
  let ties := pair_types.count "t"
  if concordant_pairs + discordant_pairs + ties = 0 then
    Except.error "ZeroDivisionError"
  else
    Except.ok
      { tau := ((concordant_pairs : ℚ) - (discordant_pairs : ℚ)) /
          ((concordant_pairs : ℚ) + (discordant_pairs : ℚ) + (ties : ℚ)),
        concordant := concordant_pairs,
        discordant := discordant_pairs,
        ties := ties }

/-- The variant-B decision table of spec §4.3, written directly from the
spec's words, for comparison with `compute_rank_pair_type`. -/
def classify_spec_table (a b x y : ℚ) : String :=
  if a < b then (if x < y then "c" else if x = y then "t" else "d")
  else if a > b then (if x < y then "d" else if x = y then "t" else "c")
  else "-"

/-! ### Helper lemmas -/

theorem rat_abs_eq_abs (q : ℚ) : rat_abs q = |q| := by
  rw [rat_abs]
  split
  · rw [abs_of_neg]; assumption
  · rw [abs_of_nonneg]; exact not_lt.mp (by assumption)

theorem compute_human_ranks_two (a b t : ℚ) :
    compute_human_ranks [a, b] t = Except.ok (human_ranks_pair a b t) := rfl

theorem classify_pair_def (t : ℚ) (r1 r2 : Record) :
    classify_pair t r1 r2 =
      compute_rank_pair_type (human_ranks_pair r1.ranking r2.ranking t)
        (rank_min (r1.score, r2.score)) := rfl

/-! ### Claim theorems -/

/-- Claim C1 (code-bug evidence): on a single group of two records with
human scores `(90, 40)`, metric scores `(5, 3)` and threshold 25, the code
returns `{tau := -1, concordant := 0, discordant := 1, ties := 0}` — the
pair is classified discordant, not concordant as the spec (and the
function's own docstring table) state.  The human rank deriver gives rank 1
to the larger human score while pandas min-ranking gives rank 1 to the
smaller metric score, so the two rank conventions point in opposite
directions. -/
theorem kendalls_tau_darr_scenario_90_40 :
    kendalls_tau_darr 25 [[⟨90, 5⟩, ⟨40, 3⟩]] =
      Except.ok { tau := -1, concordant := 0, discordant := 1, ties := 0 } := by
  norm_num [kendalls_tau_darr, all_pair_types, pair_types_of_group, combinations2,
    classify_pair, compute_human_ranks, human_ranks_pair, rat_abs,
    compute_rank_pair_type, lookup_comparison, comparison_variant_b,
    op_lt, op_eq, op_gt, rank_min, List.count_cons]
  simp

/-- Claim C2 (counterexample): at `a = b = 0` and threshold `t = 0` the
difference `|a - b|` equals the threshold exactly, yet the scores ARE tied
(both rank 1), refuting the claim's boundary clause for the degenerate
threshold 0. -/
theorem compute_human_ranks_boundary_cex :
    |(0 : ℚ) - 0| = (0 : ℚ) ∧ compute_human_ranks [0, 0] 0 = Except.ok (1, 1) := by
  constructor
  · norm_num
  · rfl

/-- Claim C2 (amended): `compute_human_ranks` returns `(1,1)` iff the two
scores are equal or closer than the threshold; otherwise the larger score
gets rank 1 and the smaller rank 2; and a difference exactly equal to a
POSITIVE threshold is not tied. -/
theorem compute_human_ranks_policy (a b t : ℚ) :
    (a = b ∨ |a - b| < t → compute_human_ranks [a, b] t = Except.ok (1, 1)) ∧
    (¬(a = b ∨ |a - b| < t) →
      (a > b → compute_human_ranks [a, b] t = Except.ok (1, 2)) ∧
      (a < b → compute_human_ranks [a, b] t = Except.ok (2, 1))) ∧
    (0 < t → |a - b| = t → compute_human_ranks [a, b] t ≠ Except.ok (1, 1)) := by
  have hrw : ∀ s : ℚ, compute_human_ranks [a, b] s =
      Except.ok (if a = b ∨ |a - b| < s then (1, 1) else if a > b then (1, 2) else (2, 1)) := by
    intro s
    rw [compute_human_ranks_two, human_ranks_pair, rat_abs_eq_abs]
  refine ⟨?_, ?_, ?_⟩
  · intro h
    rw [hrw, if_pos h]
  · intro h
    constructor
    · intro hab
      rw [hrw, if_neg h, if_pos hab]
    · intro hab
      rw [hrw, if_neg h, if_neg (not_lt.mpr hab.le)]
  · intro ht habs
    have h : ¬(a = b ∨ |a - b| < t) := by
      rintro (rfl | hlt)
      · rw [sub_self, abs_zero] at habs
        exact absurd habs.symm (ne_of_gt ht)
      · exact absurd habs (ne_of_lt hlt)
    rw [hrw, if_neg h]
    split <;> simp

/-- Claim C2 (witness): at scores `(25, 0)` and threshold `25` the
difference equals the threshold, and the result is the untied ranking
`(1, 2)`. -/
theorem compute_human_ranks_policy_witness :
    compute_human_ranks [25, 0] 25 = Except.ok (1, 2) ∧
    compute_human_ranks [25, 0] 25 ≠ Except.ok (1, 1) :=
  ⟨((compute_human_ranks_policy 25 0 25).2.1 (by norm_num)).1 (by norm_num),
   (compute_human_ranks_policy 25 0 25).2.2 (by norm_num) (by norm_num)⟩

/-- Claim C9: `compute_human_ranks` fails with the assertion error exactly
when it is not given two scores, and succeeds on any two scores. -/
theorem compute_human_ranks_arity (scores : List ℚ) (t : ℚ) :
    (scores.length ≠ 2 → compute_human_ranks scores t = Except.error "AssertionError") ∧
    (scores.length = 2 → ∃ r, compute_human_ranks scores t = Except.ok r) := by
  constructor
  · intro h
    cases scores with
    | nil => rfl
    | cons a tl =>
      cases tl with
      | nil => rfl
      | cons b tl2 =>
        cases tl2 with
        | nil => exact absurd rfl h
        | cons c tl3 => rfl
  · intro h
    obtain ⟨a, b, rfl⟩ := List.length_eq_two.mp h
    exact ⟨human_ranks_pair a b t, rfl⟩

/-- Claim C9 (witness): three scores raise the assertion error; two scores
succeed. -/
theorem compute_human_ranks_arity_witness :
    compute_human_ranks [1, 2, 3] 25 = Except.error "AssertionError" ∧
    ∃ r, compute_human_ranks [1, 2] 25 = Except.ok r :=
  ⟨(compute_human_ranks_arity [1, 2, 3] 25).1 (by decide),
   (compute_human_ranks_arity [1, 2] 25).2 (by decide)⟩

theorem rank_pair_type_eq_table (a b x y : ℚ) :
    compute_rank_pair_type (a, b) (x, y) = classify_spec_table a b x y := by
  have key : ∀ u v : ℚ, u < v → ¬v < u := fun u v h => lt_asymm h
  rcases lt_trichotomy a b with h | h | h
  · rcases lt_trichotomy x y with h2 | h2 | h2
    · simp [compute_rank_pair_type, lookup_comparison, comparison_variant_b,
        op_lt, op_eq, op_gt, classify_spec_table, h, h2]
    · subst h2
      simp [compute_rank_pair_type, lookup_comparison, comparison_variant_b,
        op_lt, op_eq, op_gt, classify_spec_table, h, lt_irrefl]
    · simp [compute_rank_pair_type, lookup_comparison, comparison_variant_b,
        op_lt, op_eq, op_gt, classify_spec_table, h, h2, h2.ne', key x y, key y x h2]
  · subst h
    rcases lt_trichotomy x y with h2 | h2 | h2
    · simp [compute_rank_pair_type, lookup_comparison, comparison_variant_b,
        op_lt, op_eq, op_gt, classify_spec_table, h2, lt_irrefl]
    · subst h2
      simp [compute_rank_pair_type, lookup_comparison, comparison_variant_b,
        op_lt, op_eq, op_gt, classify_spec_table, lt_irrefl]
    · simp [compute_rank_pair_type, lookup_comparison, comparison_variant_b,
        op_lt, op_eq, op_gt, classify_spec_table, h2, lt_irrefl, key y x h2]
  · rcases lt_trichotomy x y with h2 | h2 | h2
    · simp [compute_rank_pair_type, lookup_comparison, comparison_variant_b,
        op_lt, op_eq, op_gt, classify_spec_table, h, h2, h.ne', key a b, key b a h]
    · subst h2
      simp [compute_rank_pair_type, lookup_comparison, comparison_variant_b,
        op_lt, op_eq, op_gt, classify_spec_table, h, h.ne', key b a h, lt_irrefl]
    · simp [compute_rank_pair_type, lookup_comparison, comparison_variant_b,
        op_lt, op_eq, op_gt, classify_spec_table, h, h2, h.ne', h2.ne',
        key b a h, key y x h2]

theorem human_ranks_pair_swap (a b t : ℚ) :
    human_ranks_pair b a t = ((human_ranks_pair a b t).2, (human_ranks_pair a b t).1) := by
  have habs : rat_abs (b - a) = rat_abs (a - b) := by
    rw [rat_abs_eq_abs, rat_abs_eq_abs, abs_sub_comm]
  by_cases hcond : a = b ∨ rat_abs (a - b) < t
  · have h2 : b = a ∨ rat_abs (b - a) < t := by
      rw [habs]
      rcases hcond with h | h
      · exact Or.inl h.symm
      · exact Or.inr h
    rw [human_ranks_pair, human_ranks_pair, if_pos hcond, if_pos h2]
  · have h2 : ¬(b = a ∨ rat_abs (b - a) < t) := by
      rw [habs]
      intro h
      rcases h with h | h
      · exact hcond (Or.inl h.symm)
      · exact hcond (Or.inr h)
    rcases lt_trichotomy a b with h | h | h
    · rw [human_ranks_pair, human_ranks_pair, if_neg hcond, if_neg h2,
        if_neg (not_lt.mpr h.le), if_pos h]
    · exact absurd (Or.inl h) hcond
    · rw [human_ranks_pair, human_ranks_pair, if_neg hcond, if_neg h2,
        if_pos h, if_neg (not_lt.mpr h.le)]

theorem rank_min_swap (a b : ℚ) :
    rank_min (b, a) = ((rank_min (a, b)).2, (rank_min (a, b)).1) := by
  rcases lt_trichotomy a b with h | h | h
  · simp only [rank_min]
    simp [h, h.ne, h.ne', lt_asymm h]
  · subst h
    simp only [rank_min]
    simp
  · simp only [rank_min]
    simp [h, h.ne, h.ne', lt_asymm h]

theorem rank_pair_type_swap (a b x y : ℚ) :
    compute_rank_pair_type (b, a) (y, x) = compute_rank_pair_type (a, b) (x, y) := by
  rw [rank_pair_type_eq_table, rank_pair_type_eq_table]
  rcases lt_trichotomy a b with h | h | h
  · rcases lt_trichotomy x y with h2 | h2 | h2
    · simp [classify_spec_table, h, h2, h2.ne, h2.ne', lt_asymm h, lt_asymm h2]
    · subst h2
      simp [classify_spec_table, h, lt_asymm h, lt_irrefl]
    · simp [classify_spec_table, h, h2, h2.ne, h2.ne', lt_asymm h, lt_asymm h2]
  · subst h
    simp [classify_spec_table, lt_irrefl]
  · rcases lt_trichotomy x y with h2 | h2 | h2
    · simp [classify_spec_table, h, h2, h2.ne, h2.ne', lt_asymm h, lt_asymm h2]
    · subst h2
      simp [classify_spec_table, h, lt_asymm h, lt_irrefl]
    · simp [classify_spec_table, h, h2, h2.ne, h2.ne', lt_asymm h, lt_asymm h2]

/-- Claim C3: on every pair of human ranks `(a, b)` and metric ranks
`(x, y)`, `compute_rank_pair_type` realises exactly the variant-B soft
penalization table of spec §4.3: strict agreement is concordant, strict
disagreement discordant, a metric-side equality against a human-side strict
order a tie, and any human-side equality falls through every row to the
unclassified marker `"-"`. -/
theorem compute_rank_pair_type_matches_table (a b x y : ℚ) :
    compute_rank_pair_type (a, b) (x, y) = classify_spec_table a b x y :=
  rank_pair_type_eq_table a b x y

/-- Claim C10: classification is invariant under listing the two records of
a pair in the other order: the classifier commutes with swapping both rank
pairs, the human-rank deriver commutes with swapping its two scores, and
the classification of a pair of records does not change when the records
are exchanged. -/
theorem pair_classification_symmetric (a b x y t : ℚ) (r1 r2 : Record) :
    compute_rank_pair_type (b, a) (y, x) = compute_rank_pair_type (a, b) (x, y) ∧
    compute_human_ranks [b, a] t =
      (compute_human_ranks [a, b] t).map (fun p => (p.2, p.1)) ∧
    classify_pair t r2 r1 = classify_pair t r1 r2 := by
  refine ⟨rank_pair_type_swap a b x y, ?_, ?_⟩
  · rw [compute_human_ranks_two, compute_human_ranks_two, Except.map,
      human_ranks_pair_swap]
  · rw [classify_pair_def, classify_pair_def, human_ranks_pair_swap, rank_min_swap]
    exact rank_pair_type_swap _ _ _ _

theorem combinations2_length {α : Type} (l : List α) :
    (combinations2 l).length = Nat.choose l.length 2 := by
  induction l with
  | nil => rfl
  | cons x xs ih =>
    simp only [combinations2, List.length_append, List.length_map, List.length_cons,
      Nat.choose_succ_succ, Nat.choose_one_right, ih]

theorem combinations2_mem {α : Type} {l : List α} {p : α × α}
    (hp : p ∈ combinations2 l) : p.1 ∈ l ∧ p.2 ∈ l := by
  induction l with
  | nil => simp [combinations2] at hp
  | cons x xs ih =>
    simp only [combinations2, List.mem_append, List.mem_map] at hp
    rcases hp with ⟨y, hy, rfl⟩ | hp
    · exact ⟨List.mem_cons_self x xs, List.mem_cons_of_mem x hy⟩
    · rcases ih hp with ⟨h1, h2⟩
      exact ⟨List.mem_cons_of_mem x h1, List.mem_cons_of_mem x h2⟩

theorem combinations2_ne {α : Type} {l : List α} (h : l.Nodup) :
    ∀ p ∈ combinations2 l, p.1 ≠ p.2 := by
  induction l with
  | nil => intro p hp; simp [combinations2] at hp
  | cons x xs ih =>
    intro p hp
    simp only [combinations2, List.mem_append, List.mem_map] at hp
    rcases hp with ⟨y, hy, rfl⟩ | hp
    · intro e
      have exy : x = y := e
      exact (List.nodup_cons.mp h).1 (exy ▸ hy)
    · exact ih (List.nodup_cons.mp h).2 p hp

theorem pairwise_map_head {α : Type} {x : α} {xs : List α}
    (hx : x ∉ xs) (hxs : xs.Nodup) :
    (xs.map fun y => (x, y)).Pairwise fun p q => p ≠ q ∧ p ≠ (q.2, q.1) := by
  induction xs with
  | nil => exact List.Pairwise.nil
  | cons y ys ih =>
    simp only [List.map_cons]
    refine List.Pairwise.cons ?_
      (ih (fun h => hx (List.mem_cons_of_mem y h)) (List.nodup_cons.mp hxs).2)
    intro q hq
    simp only [List.mem_map] at hq
    obtain ⟨z, hz, rfl⟩ := hq
    constructor
    · intro e
      rw [Prod.mk.injEq] at e
      exact (List.nodup_cons.mp hxs).1 (e.2 ▸ hz)
    · intro e
      rw [Prod.mk.injEq] at e
      exact hx (e.1 ▸ List.mem_cons_of_mem y hz)

theorem combinations2_pairwise {α : Type} {l : List α} (h : l.Nodup) :
    (combinations2 l).Pairwise fun p q => p ≠ q ∧ p ≠ (q.2, q.1) := by
  induction l with
  | nil => exact List.Pairwise.nil
  | cons x xs ih =>
    obtain ⟨hx, hxs⟩ := List.nodup_cons.mp h
    simp only [combinations2]
    rw [List.pairwise_append]
    refine ⟨pairwise_map_head hx hxs, ih hxs, ?_⟩
    intro p hp q hq
    simp only [List.mem_map] at hp
    obtain ⟨z, hz, rfl⟩ := hp
    obtain ⟨hq1, hq2⟩ := combinations2_mem hq
    constructor
    · intro e
      subst e
      exact hx hq1
    · intro e
      rw [Prod.mk.injEq] at e
      refine hx ?_
      rw [e.1]
      exact hq2

/-- Claim C6: over any list of pairwise-distinct row indices,
`get_index_pairs` yields exactly `n·(n−1)/2` pairs, never pairs an index
with itself, never repeats an unordered pair, and yields no pair for a
single-record group. -/
theorem get_index_pairs_spec (idx : List ℕ) (h : idx.Nodup) :
    (get_index_pairs idx).length = idx.length * (idx.length - 1) / 2 ∧
    (∀ p ∈ get_index_pairs idx, p.1 ≠ p.2) ∧
    (get_index_pairs idx).Pairwise (fun p q => p ≠ q ∧ p ≠ (q.2, q.1)) ∧
    (idx.length = 1 → get_index_pairs idx = []) := by
  have hfil : get_index_pairs idx = combinations2 idx := by
    rw [get_index_pairs, List.filter_eq_self]
    intro p hp
    simpa [bne_iff_ne] using combinations2_ne h p hp
  refine ⟨?_, ?_, ?_, ?_⟩
  · rw [hfil, combinations2_length, Nat.choose_two_right]
  · intro p hp
    rw [hfil] at hp
    exact combinations2_ne h p hp
  · rw [hfil]
    exact combinations2_pairwise h
  · intro hlen
    obtain ⟨a, rfl⟩ := List.length_eq_one.mp hlen
    rfl

/-- Claim C6 (witness): the three-index group `[10, 20, 30]` has nodup
indices and satisfies every conjunct, with `3·2/2 = 3` pairs. -/
theorem get_index_pairs_spec_witness :
    (get_index_pairs [10, 20, 30]).length = 3 * (3 - 1) / 2 ∧
    (∀ p ∈ get_index_pairs [10, 20, 30], p.1 ≠ p.2) ∧
    (get_index_pairs [10, 20, 30]).Pairwise (fun p q => p ≠ q ∧ p ≠ (q.2, q.1)) ∧
    ((3 : ℕ) = 1 → get_index_pairs [10, 20, 30] = []) :=
  get_index_pairs_spec [10, 20, 30] (by decide)

theorem lookup_comparison_mem (table : List ((ℚ → ℚ → Bool) × (ℚ → ℚ → Bool) × String))
    (hm mm : ℚ × ℚ) :
    lookup_comparison table hm mm = "-" ∨
    lookup_comparison table hm mm ∈ table.map (fun r => r.2.2) := by
  induction table with
  | nil => left; rfl
  | cons row rest ih =>
    obtain ⟨h_op, m_op, outcome⟩ := row
    simp only [lookup_comparison]
    split
    · right; simp
    · rcases ih with h | h
      · left; exact h
      · right
        simp only [List.map_cons, List.mem_cons]
        exact Or.inr h

theorem classify_pair_mem (t : ℚ) (r1 r2 : Record) :
    classify_pair t r1 r2 = "c" ∨ classify_pair t r1 r2 = "d" ∨
    classify_pair t r1 r2 = "t" ∨ classify_pair t r1 r2 = "-" := by
  rw [classify_pair_def]
  rcases lookup_comparison_mem comparison_variant_b
      (human_ranks_pair r1.ranking r2.ranking t) (rank_min (r1.score, r2.score))
    with h | h
  · right; right; right; exact h
  · simp only [comparison_variant_b, List.map_cons, List.map_nil, List.mem_cons,
      List.not_mem_nil, or_false] at h
    rw [compute_rank_pair_type]
    tauto

theorem count_partition (l : List String)
    (h : ∀ x ∈ l, x = "c" ∨ x = "d" ∨ x = "t" ∨ x = "-") :
    l.count "c" + l.count "d" + l.count "t" + l.count "-" = l.length := by
  induction l with
  | nil => rfl
  | cons x xs ih =>
    have ih2 := ih (fun y hy => h y (List.mem_cons_of_mem x hy))
    rcases h x (List.mem_cons_self x xs) with rfl | rfl | rfl | rfl <;>
      simp [List.count_cons, ih2] <;> omega

/-- Claim C5: every generated pair receives exactly one of the four
classifications: the concordant, discordant, tie and unclassified counts
accumulated over all groups sum to the total number of pairs, which is the
sum over groups of the group's pair count. -/
theorem classification_partition (t : ℚ) (groups : List (List Record)) :
    (all_pair_types t groups).count "c" + (all_pair_types t groups).count "d" +
      (all_pair_types t groups).count "t" + (all_pair_types t groups).count "-" =
      (all_pair_types t groups).length ∧
    (all_pair_types t groups).length =
      (groups.map fun g => (combinations2 g).length).sum := by
  constructor
  · apply count_partition
    intro x hx
    simp only [all_pair_types, List.mem_flatMap, pair_types_of_group, List.mem_map] at hx
    obtain ⟨g, hg, p, hp, rfl⟩ := hx
    exact classify_pair_mem t p.1 p.2
  · simp [all_pair_types, pair_types_of_group, Function.comp_def]

/-- Claim C4: when every pair of every group is unclassified, the
concordant, discordant and tie counts are all zero, and the final division
fails with the zero-division error instead of returning a result. -/
theorem kendalls_tau_darr_all_unclassified (t : ℚ) (groups : List (List Record))
    (h : ∀ s ∈ all_pair_types t groups, s = "-") :
    kendalls_tau_darr t groups = Except.error "ZeroDivisionError" := by
  have hc : (all_pair_types t groups).count "c" = 0 := by
    apply List.count_eq_zero.mpr
    intro hmem
    have := h _ hmem
    simp at this
  have hd : (all_pair_types t groups).count "d" = 0 := by
    apply List.count_eq_zero.mpr
    intro hmem
    have := h _ hmem
    simp at this
  have ht : (all_pair_types t groups).count "t" = 0 := by
    apply List.count_eq_zero.mpr
    intro hmem
    have := h _ hmem
    simp at this
  simp only [kendalls_tau_darr, hc, hd, ht]
  rfl

/-- Claim C4 (witness): one group of two records with human scores
`(50, 55)` (closer than the threshold 25, hence a human tie, hence
unclassified) makes the computation fail with the zero-division error. -/
theorem kendalls_tau_darr_all_unclassified_witness :
    kendalls_tau_darr 25 [[⟨50, 5⟩, ⟨55, 3⟩]] = Except.error "ZeroDivisionError" :=
  kendalls_tau_darr_all_unclassified 25 [[⟨50, 5⟩, ⟨55, 3⟩]] (by
    have hall : all_pair_types 25 [[⟨50, 5⟩, ⟨55, 3⟩]] = ["-"] := by
      norm_num [all_pair_types, pair_types_of_group, combinations2,
        classify_pair, compute_human_ranks, human_ranks_pair, rat_abs,
        compute_rank_pair_type, lookup_comparison, comparison_variant_b,
        op_lt, op_eq, op_gt, rank_min]
    rw [hall]
    intro s hs
    simpa using hs)

/-- Claim C7: whenever the denominator is nonzero — that is, whenever the
aggregator returns a result at all — the returned tau lies in `[-1, 1]`. -/
theorem tau_in_unit_interval (t : ℚ) (groups : List (List Record)) (r : TauResult)
    (h : kendalls_tau_darr t groups = Except.ok r) :
    -1 ≤ r.tau ∧ r.tau ≤ 1 := by
  simp only [kendalls_tau_darr] at h
  split at h
  · exact absurd h (by simp)
  · rename_i h0
    rw [Except.ok.injEq] at h
    subst h
    have hpos : (0 : ℚ) < ((all_pair_types t groups).count "c" : ℚ) +
        ((all_pair_types t groups).count "d" : ℚ) +
        ((all_pair_types t groups).count "t" : ℚ) := by
      have h1 : 0 < (all_pair_types t groups).count "c" +
          (all_pair_types t groups).count "d" +
          (all_pair_types t groups).count "t" := Nat.pos_of_ne_zero h0
      exact_mod_cast h1
    have hcn : (0 : ℚ) ≤ ((all_pair_types t groups).count "c" : ℚ) := Nat.cast_nonneg _
    have hdn : (0 : ℚ) ≤ ((all_pair_types t groups).count "d" : ℚ) := Nat.cast_nonneg _
    have htn : (0 : ℚ) ≤ ((all_pair_types t groups).count "t" : ℚ) := Nat.cast_nonneg _
    constructor
    · rw [le_div_iff₀ hpos]
      linarith
    · rw [div_le_one hpos]
      linarith

/-- Claim C7 (witness): a group of two records with human scores `(80, 10)`
and metric scores `(1, 9)` yields one discordant-free classification table
and a tau inside `[-1, 1]`. -/
theorem tau_in_unit_interval_witness :
    -1 ≤ (TauResult.mk 1 1 0 0).tau ∧ (TauResult.mk 1 1 0 0).tau ≤ 1 :=
  tau_in_unit_interval 25 [[⟨80, 1⟩, ⟨10, 9⟩]] ⟨1, 1, 0, 0⟩ (by
    norm_num [kendalls_tau_darr, all_pair_types, pair_types_of_group, combinations2,
      classify_pair, compute_human_ranks, human_ranks_pair, rat_abs,
      compute_rank_pair_type, lookup_comparison, comparison_variant_b,
      op_lt, op_eq, op_gt, rank_min, List.count_cons]
    simp)

/-- Claim C8: the aggregate result does not depend on the order in which
groups are enumerated: permuting the list of groups (keeping each group's
own record order) leaves the counts and tau unchanged. -/
theorem kendalls_tau_darr_group_perm (t : ℚ) (g1 g2 : List (List Record))
    (h : g1.Perm g2) : kendalls_tau_darr t g1 = kendalls_tau_darr t g2 := by
  have hperm : (all_pair_types t g1).Perm (all_pair_types t g2) :=
    h.flatMap_right (pair_types_of_group t)
  simp only [kendalls_tau_darr, hperm.count_eq]

/-- Claim C8 (witness): swapping two concrete groups leaves the result
unchanged. -/
theorem kendalls_tau_darr_group_perm_witness :
    kendalls_tau_darr 25 [[⟨90, 5⟩, ⟨40, 3⟩], [⟨10, 1⟩, ⟨80, 9⟩]] =
      kendalls_tau_darr 25 [[⟨10, 1⟩, ⟨80, 9⟩], [⟨90, 5⟩, ⟨40, 3⟩]] :=
  kendalls_tau_darr_group_perm 25 _ _ (List.Perm.swap _ _ _)

end KendallsTau
